import Mathlib

/-!
Verification of the bundle orchestrator and configuration model.

A shallow embedding, in Lean 4, of the core of `gulp-bundle-assets`:

* the `Bundler` transform stage (`ResolveVirtualPath`, `_transform`, `_flush`)
  from the orchestrator source file;
* the JS `Map` semantics it relies on (insertion-ordered association lists);
* the `ConfigModel` (`lib/model/config.js` is not part of the sources at hand,
  so its behaviour is modelled from the specification and cross-checked
  against `test/unit/model/config-test.js`).

JavaScript strings are modelled as Lean `String`s and the JS string methods
used by the source (`startsWith`, `replace`, slicing) are defined here at the
character-list level so that their semantics are explicit.
-/

namespace GulpBundleAssets

/-! ## JS string primitives used by the source -/

/-- JS `s.startsWith(pre)`: `pre` is a character-level prefix of `s`. -/
def jsStartsWith (s pre : String) : Bool :=
  pre.data.isPrefixOf s.data

/-- Character-list core of JS `String.prototype.replace` with a string
pattern: the first occurrence of `pat` (leftmost, scanning from the start)
is replaced by `repl`; if `pat` does not occur, the string is unchanged. -/
def jsReplaceFirstList (pat repl : List Char) : List Char → List Char
  | [] => if pat.isPrefixOf ([] : List Char) then repl else []
  | c :: rest =>
    if pat.isPrefixOf (c :: rest) then repl ++ (c :: rest).drop pat.length
    else c :: jsReplaceFirstList pat repl rest

/-- JS `s.replace(pat, repl)` (string pattern: replaces first occurrence). -/
def jsReplaceFirst (s pat repl : String) : String :=
  ⟨jsReplaceFirstList pat.data repl.data s.data⟩

/-- JS `s.slice(n)` / the suffix of `s` after its first `n` characters. -/
def jsDrop (s : String) (n : Nat) : String :=
  ⟨s.data.drop n⟩

/-- Node.js `path.resolve` applied to a single **absolute** POSIX path:
normalisation — split on `/`, drop empty and `.` components, let `..` pop the
previous component (a `..` at the root is dropped), re-join under a leading
`/`.  Every call site in the source passes absolute paths (`Vinyl` paths are
absolute, and the stored transform prefixes are themselves `path.resolve`
outputs), so the cwd-joining branch of `path.resolve` is never exercised and
is not modelled. -/
def resolvePath (p : String) : String :=
  let comps := (p.data.splitOn '/').filter (fun c => c ≠ [] ∧ c ≠ ['.'])
  let stack := comps.foldl
    (fun (acc : List (List Char)) c =>
      if c = ['.', '.'] then acc.dropLast else acc ++ [c]) []
  ⟨'/' :: List.intercalate ['/'] stack⟩

/-! ## JS `Map` semantics

The source keeps its state in JS `Map`s, which iterate in insertion order and
whose `set` updates an existing key in place (keeping its position) and
appends a fresh key at the end.  We model a JS `Map` as an insertion-ordered
association list. -/

/-- JS `map.get(k)` (first — and, keys being unique, only — binding). -/
def mapGet {α : Type} : List (String × α) → String → Option α
  | [], _ => none
  | e :: rest, k => if e.1 = k then some e.2 else mapGet rest k

/-- JS `map.has(k)`. -/
def mapHas {α : Type} (m : List (String × α)) (k : String) : Bool :=
  (mapGet m k).isSome

/-- JS `map.set(k, v)`: update in place if the key is present, else append. -/
def mapSet {α : Type} : List (String × α) → String → α → List (String × α)
  | [], k, v => [(k, v)]
  | e :: rest, k, v => if e.1 = k then (k, v) :: rest else e :: mapSet rest k v

/-- The value the last binding of `k` in an entry list carries (the value a
sequence of JS `map.set` calls leaves behind). -/
def lastValue {α : Type} (es : List (String × α)) (k : String) : Option α :=
  es.foldl (fun acc e => if e.1 = k then some e.2 else acc) none

/-! ## Stream data model

A `Vinyl` file carries an absolute `path` and an opaque payload (modelled by
a `Nat` identity, sufficient to tell files apart).  The orchestrator extends
stored files with a transient `Precedence` field (`VinylExtension`). -/

/-- A `Vinyl` file as it travels the stream: `path` plus an opaque payload. -/
structure PlainFile where
  path : String
  contents : Nat
deriving DecidableEq, Repr

/-- A `Vinyl & VinylExtension`: a file held in `ResolvedFiles`, carrying the
transient `Precedence` used for collision resolution. -/
structure VFile where
  path : String
  contents : Nat
  Precedence : Nat
deriving DecidableEq, Repr

/-- Forgetting the `VinylExtension` (`delete file.Precedence`). -/
def VFile.strip (f : VFile) : PlainFile :=
  { path := f.path, contents := f.contents }

/-- An object-mode stream chunk: either a `Vinyl` file or some other value. -/
inductive Chunk where
  | vinyl (f : PlainFile)
  | other (tag : Nat)
deriving DecidableEq, Repr

/-- JS `Vinyl.isVinyl(chunk)`. -/
def isVinyl : Chunk → Bool
  | .vinyl _ => true
  | .other _ => false

/-- The `ResolvedFiles` member: a JS `Map` from virtual path to the single
file resolved at that path. -/
abbrev FileTable : Type := List (String × VFile)

/-- The `ScriptBundles` / `StyleBundles` members: bundle name to path list. -/
abbrev BundleMap : Type := List (String × List String)

/-- The `ResultsMap` member: bundle name to output path list. -/
abbrev ResultsMap : Type := List (String × List String)

/-! ## `PluginError` and the plugin identity -/

/-- Modelled from the spec: the component-identity tag exported by
`plugin-details` (that module is not among the sources at hand; per the spec
faults are "tagged with this component's identity", and only the tag's
identity matters, not its text). -/
def PluginName : String := "gulp-bundle-assets"

/-- Models `new PluginError(PluginName, error)`: a reported failure tagged with the
plugin's identity and wrapping the original fault as its cause. -/
structure PluginErrorOf (E : Type) where
  name : String
  cause : E
deriving DecidableEq, Repr

/-! ## `Bundler.ResolveVirtualPath` (source lines 111–120)

Scans `PathTransforms` in order with `entries()` (0-based index); the first
rule whose `from`-prefix starts the path yields
`[path.resolve(path.replace(from, to)), index]`; with no match, `[path, 0]`. -/

/-- The `for (const [index, [oldPathStart, newPathStart]] of
this.PathTransforms.entries())` loop, `i` being the index of the head rule. -/
def resolveVirtualPathAux (path : String) : Nat → List (String × String) → String × Nat
  | _, [] => (path, 0)
  | i, (oldPathStart, newPathStart) :: rest =>
    if jsStartsWith path oldPathStart then
      (resolvePath (jsReplaceFirst path oldPathStart newPathStart), i)
    else resolveVirtualPathAux path (i + 1) rest

/-- Function `Bundler.ResolveVirtualPath`, with the `PathTransforms` list explicit. -/
def ResolveVirtualPath (transforms : List (String × String)) (path : String) :
    String × Nat :=
  resolveVirtualPathAux path 0 transforms

/-! ## `Bundler._transform` (source lines 129–159) -/

/-- The collision-handling insert of `_transform` (source lines 141–145):
no incumbent at `file.path` inserts; an incumbent is replaced exactly when
its precedence is strictly below the incoming file's, and otherwise the
incoming file is discarded. -/
def upsert (table : FileTable) (file : VFile) : FileTable :=
  match mapGet table file.path with
  | some incumbent =>
    if incumbent.Precedence < file.Precedence then mapSet table file.path file
    else table
  | none => mapSet table file.path file

/-- Body of `_transform` with its fallible steps abstracted: `resolve` stands
for the virtual-path computation, which the `try`/`catch` guards against
arbitrary faults.  Returns the new `ResolvedFiles` table, the chunks pushed
downstream, and the argument passed to `callback` (`none` on success, the
wrapping `PluginError` on a fault). -/
def transformStepE {E : Type} (resolve : String → Except E (String × Nat))
    (table : FileTable) (chunk : Chunk) :
    FileTable × List Chunk × Option (PluginErrorOf E) :=
  match chunk with
  | .vinyl f =>
    match resolve f.path with
    | .error e => (table, [], some ⟨PluginName, e⟩)
    | .ok (virtualPath, precedence) =>
      -- `file.path = virtualPath; file.Precedence = precedence`
      let file : VFile :=
        { path := virtualPath, contents := f.contents, Precedence := precedence }
      (upsert table file, [], none)
  | chunk => (table, [chunk], none)

/-- Function `Bundler._transform` proper: the virtual-path step is the actual
`ResolveVirtualPath`, which never faults. -/
def transformStep (transforms : List (String × String)) (table : FileTable)
    (chunk : Chunk) : FileTable × List Chunk × Option (PluginErrorOf Empty) :=
  transformStepE (fun p => .ok (ResolveVirtualPath transforms p)) table chunk

/-! ## `Bundler._flush` (source lines 165–198)

`BundlesProcessor` lives in a separate module (`bundles-processor`, an
external collaborator from the spec's point of view); `_flush` is modelled
parametrically in it: `bp` takes the resolved-file table, a bundle map and a
stream factory and either faults (a rejected `await`) or returns the chunks
to push and the per-bundle output-path map.  It reads the table and does not
mutate it (the spec: it *selects* matching files from the table). -/

/-- The outcome of `_flush`: chunks pushed downstream (in order), the
`ResolvedFiles` table afterwards, the `ResultsMap` afterwards, and the
argument passed to `callback`. -/
structure FlushResult (E : Type) where
  pushed : List Chunk
  table : FileTable
  results : ResultsMap
  callbackArg : Option (PluginErrorOf E)
deriving DecidableEq, Repr

/-- Function `Bundler._flush`, parametric in the `BundlesProcessor` function `bp` and
the two stream factories (of abstract type `F`). -/
def flush {E F : Type}
    (bp : FileTable → BundleMap → F → Except E (List Chunk × ResultsMap))
    (scriptBundles styleBundles : BundleMap) (scriptsF stylesF : F)
    (table : FileTable) (results : ResultsMap) : FlushResult E :=
  -- Scripts
  match bp table scriptBundles scriptsF with
  | .error e => ⟨[], table, results, some ⟨PluginName, e⟩⟩
  | .ok (chunks₁, resultsMap₁) =>
    let results₁ := resultsMap₁.foldl (fun acc nv => mapSet acc nv.1 nv.2) results
    -- Styles
    match bp table styleBundles stylesF with
    | .error e => ⟨chunks₁, table, results₁, some ⟨PluginName, e⟩⟩
    | .ok (chunks₂, resultsMap₂) =>
      let results₂ := resultsMap₂.foldl (fun acc nv => mapSet acc nv.1 nv.2) results₁
      -- Push resolved files on through (with `delete file.Precedence`), then
      -- `this.ResolvedFiles.clear()`
      let residual := table.map (fun kv => Chunk.vinyl kv.2.strip)
      ⟨chunks₁ ++ chunks₂ ++ residual, [], results₂, none⟩

/-! ## `ConfigModel` (modelled from the spec)

`lib/model/config.js` is not among the sources at hand — only its unit tests
are — so the configuration model is built from the specification's
construction contract and cross-checked against
`test/unit/model/config-test.js`. -/

/-- An `options` entry's value: a boolean, a single environment-name string,
or a sequence of environment-name strings. -/
inductive OptionValue where
  | bool (b : Bool)
  | str (s : String)
  | strs (l : List String)
deriving DecidableEq, Repr

/-- A bundle definition, as far as environment extraction and shape
validation are concerned: `scripts`/`styles` are path-like values carrying no
environment names (kept as opaque presence markers), `options` maps option
names to `OptionValue`s in declaration order. -/
structure BundleDef where
  scripts : Option Nat := none
  styles : Option Nat := none
  options : List (String × OptionValue) := []
deriving DecidableEq, Repr

/-- A raw configuration object: `bundle` and `copy` keys, each possibly
absent.  `copy` is validated for presence only, so its value is opaque. -/
structure RawConfigObj where
  bundle : Option (List (String × BundleDef)) := none
  copy : Option Nat := none
deriving DecidableEq, Repr

/-- The documented `ConfigurationShapeError` message. -/
def configurationShapeMessage : String :=
  "Configuration file should be in the form \"\x7b bundle: \x7b\x7d, copy: \x7b\x7d \x7d\""

/-- A `ConfigurationShapeError`, raised synchronously at construction. -/
structure ConfigurationShapeError where
  message : String
deriving DecidableEq, Repr

/-- A constructed `ConfigModel`: normalised `{bundle, copy, base}`. -/
structure ConfigModel where
  bundle : List (String × BundleDef)
  copy : Option Nat
  base : String
deriving DecidableEq, Repr

/-- Modelled from the spec: `ConfigModel` construction
(`lib/model/config.js`, not among the sources at hand).  Per the
specification's construction contract, it "fails with
`ConfigurationShapeError` if, after resolving `source`, the result lacks
both a `bundle` key and a `copy` key", and `base` defaults to `.` (an
explicit `options.base` takes priority).  The unit tests confirm this
boundary: construction with no source at all and with `{junk: {}}` (both
keys absent) throws, while the environment-extraction tests construct a
model from `{bundle: {...}}` with no `copy` key without error. -/
def constructConfigModel :
    Option RawConfigObj → Option String → Except ConfigurationShapeError ConfigModel
  | none, _ => .error ⟨configurationShapeMessage⟩
  | some c, optionsBase =>
    if c.bundle.isNone && c.copy.isNone then .error ⟨configurationShapeMessage⟩
    else .ok
      { bundle := c.bundle.getD []
        copy := c.copy
        base := optionsBase.getD "." }

/-- The environment names one `options` value contributes, in order: a
boolean contributes nothing, a string its one name, a sequence each name. -/
def optionValueEnvs : OptionValue → List String
  | .bool _ => []
  | .str s => [s]
  | .strs l => l

/-- All environment-name mentions under `bundle`, depth-first and
top-to-bottom: bundles in insertion order, and within each bundle the
`options` entries in declaration order (`scripts`/`styles` carry none). -/
def allEnvMentions (bundles : List (String × BundleDef)) : List String :=
  bundles.flatMap (fun b => b.2.options.flatMap (fun o => optionValueEnvs o.2))

/-- First-seen deduplication: append each name not already collected. -/
def firstSeenDedup (l : List String) : List String :=
  l.foldl (fun acc s => if s ∈ acc then acc else acc ++ [s]) []

/-- Modelled from the spec: `ConfigModel.getAllEnvironments()`
(`lib/model/config.js`, not among the sources at hand): "the ordered
sequence of distinct environment names referenced by any `options` value
anywhere under `bundle` ... in first-seen, depth-first, top-to-bottom order,
each name appearing exactly once". -/
def getAllEnvironments (c : ConfigModel) : List String :=
  firstSeenDedup (allEnvMentions c.bundle)

/-- The documented example configuration's `bundle` member: `vendor`,
`article` and `main`, with their `options`, in declaration order. -/
def exampleComplexBundles : List (String × BundleDef) :=
  [("vendor",
    { scripts := some 0, styles := some 1,
      options := [("useMin", .strs ["production", "staging"]),
                  ("uglify", .bool false),
                  ("rev", .bool true)] }),
   ("article",
    { scripts := some 2, styles := some 3,
      options := [("uglify", .str "production"),
                  ("rev", .strs ["production", "staging"])] }),
   ("main",
    { scripts := some 4, styles := some 5,
      options := [("uglify", .strs ["production", "staging", "sat"]),
                  ("rev", .str "development")] })]

/-- The documented example configuration (its `bundle` key only, as in the
specification's example, which declares no `copy` key). -/
def exampleComplexRaw : RawConfigObj :=
  { bundle := some exampleComplexBundles, copy := none }

/-! ## Lemmas about the JS `Map` model -/

theorem mapGet_nil {α : Type} (k : String) :
    mapGet ([] : List (String × α)) k = none := rfl

theorem mapGet_cons {α : Type} (e : String × α) (rest : List (String × α))
    (k : String) :
    mapGet (e :: rest) k = if e.1 = k then some e.2 else mapGet rest k := rfl

theorem mapSet_nil {α : Type} (k : String) (v : α) :
    mapSet ([] : List (String × α)) k v = [(k, v)] := rfl

theorem mapSet_cons {α : Type} (e : String × α) (rest : List (String × α))
    (k : String) (v : α) :
    mapSet (e :: rest) k v =
      if e.1 = k then (k, v) :: rest else e :: mapSet rest k v := rfl

theorem mapGet_mapSet {α : Type} (m : List (String × α)) (k k' : String) (v : α) :
    mapGet (mapSet m k v) k' = if k' = k then some v else mapGet m k' := by
  induction m with
  | nil =>
    rw [mapSet_nil, mapGet_cons, mapGet_nil]
    by_cases h : k' = k
    · simp [h]
    · simp [h, Ne.symm h]
  | cons e rest ih =>
    rw [mapSet_cons]
    by_cases he : e.1 = k
    · rw [if_pos he, mapGet_cons, mapGet_cons]
      by_cases h : k' = k
      · simp [h]
      · have hek : e.1 ≠ k' := fun hc => h (hc.symm.trans he)
        have hkk : ¬ (k = k') := fun hc => h hc.symm
        rw [if_neg hkk, if_neg h, if_neg hek]
    · rw [if_neg he, mapGet_cons, mapGet_cons, ih]
      by_cases hek : e.1 = k'
      · have : ¬ (k' = k) := fun hc => he (hek.trans hc)
        rw [if_pos hek, if_pos hek, if_neg this]
      · rw [if_neg hek, if_neg hek]

theorem mapGet_append {α : Type} (m m' : List (String × α)) (k : String) :
    mapGet (m ++ m') k =
      match mapGet m k with
      | some v => some v
      | none => mapGet m' k := by
  induction m with
  | nil => rw [List.nil_append, mapGet_nil]
  | cons e rest ih =>
    rw [List.cons_append, mapGet_cons, mapGet_cons]
    by_cases h : e.1 = k <;> simp [h, ih]

theorem mapSet_of_get_none {α : Type} (m : List (String × α)) (k : String) (v : α)
    (h : mapGet m k = none) : mapSet m k v = m ++ [(k, v)] := by
  induction m with
  | nil => rfl
  | cons e rest ih =>
    rw [mapGet_cons] at h
    by_cases he : e.1 = k
    · simp [he] at h
    · rw [if_neg he] at h
      rw [mapSet_cons, if_neg he, ih h, List.cons_append]

theorem mapSet_append_last {α : Type} (m : List (String × α)) (k : String) (v v' : α)
    (h : mapGet m k = none) : mapSet (m ++ [(k, v)]) k v' = m ++ [(k, v')] := by
  induction m with
  | nil => simp [mapSet_nil, mapSet_cons]
  | cons e rest ih =>
    rw [mapGet_cons] at h
    by_cases he : e.1 = k
    · simp [he] at h
    · rw [if_neg he] at h
      rw [List.cons_append, mapSet_cons, if_neg he, ih h, List.cons_append]

theorem mem_map_fst_mapSet {α : Type} (m : List (String × α)) (k : String) (v : α)
    (a : String) :
    a ∈ (mapSet m k v).map Prod.fst ↔ a = k ∨ a ∈ m.map Prod.fst := by
  induction m with
  | nil => simp [mapSet_nil]
  | cons e rest ih =>
    rw [mapSet_cons]
    by_cases he : e.1 = k
    · rw [if_pos he]
      simp only [List.map_cons, List.mem_cons]
      rw [← he]
      tauto
    · rw [if_neg he]
      simp only [List.map_cons, List.mem_cons, ih]
      tauto

theorem nodup_keys_mapSet {α : Type} (m : List (String × α)) (k : String) (v : α)
    (h : (m.map Prod.fst).Nodup) : ((mapSet m k v).map Prod.fst).Nodup := by
  induction m with
  | nil => simp [mapSet_nil]
  | cons e rest ih =>
    rw [List.map_cons, List.nodup_cons] at h
    by_cases he : e.1 = k
    · rw [mapSet_cons, if_pos he, List.map_cons, List.nodup_cons]
      exact ⟨he ▸ h.1, h.2⟩
    · rw [mapSet_cons, if_neg he, List.map_cons, List.nodup_cons]
      refine ⟨fun hc => ?_, ih h.2⟩
      rcases (mem_map_fst_mapSet rest k v e.1).mp hc with hk | hm
      · exact he hk
      · exact h.1 hm

theorem foldl_lastValue_init {α : Type} (es : List (String × α)) (k : String)
    (init : Option α) :
    es.foldl (fun acc e => if e.1 = k then some e.2 else acc) init =
      match lastValue es k with
      | some v => some v
      | none => init := by
  induction es generalizing init with
  | nil => rfl
  | cons e rest ih =>
    show rest.foldl _ (if e.1 = k then some e.2 else init) = _
    rw [ih]
    show _ = match rest.foldl _ (if e.1 = k then some e.2 else none) with
      | some v => some v
      | none => init
    rw [ih]
    by_cases he : e.1 = k <;> cases hv : lastValue rest k <;> simp [he, hv]

theorem lastValue_cons {α : Type} (e : String × α) (rest : List (String × α))
    (k : String) :
    lastValue (e :: rest) k =
      match lastValue rest k with
      | some v => some v
      | none => if e.1 = k then some e.2 else none := by
  show rest.foldl _ (if e.1 = k then some e.2 else none) = _
  rw [foldl_lastValue_init]

theorem mapGet_foldl_mapSet {α : Type} (es : List (String × α))
    (acc : List (String × α)) (k : String) :
    mapGet (es.foldl (fun a e => mapSet a e.1 e.2) acc) k =
      match lastValue es k with
      | some v => some v
      | none => mapGet acc k := by
  induction es generalizing acc with
  | nil => rfl
  | cons e rest ih =>
    show mapGet (rest.foldl _ (mapSet acc e.1 e.2)) k = _
    rw [ih, lastValue_cons]
    cases hv : lastValue rest k with
    | some v => simp [hv]
    | none =>
      simp only
      rw [mapGet_mapSet]
      by_cases he : e.1 = k
      · rw [if_pos he, if_pos he.symm]
      · have hke : ¬ (k = e.1) := fun hc => he hc.symm
        rw [if_neg he, if_neg hke]

theorem mem_map_fst_of_mapGet_some {α : Type} (es : List (String × α))
    (k : String) (v : α) (h : mapGet es k = some v) : k ∈ es.map Prod.fst := by
  induction es with
  | nil => simp [mapGet_nil] at h
  | cons e rest ih =>
    rw [mapGet_cons] at h
    by_cases he : e.1 = k
    · simp [← he]
    · rw [if_neg he] at h
      simp [ih h]

theorem mapGet_eq_none_of_not_mem {α : Type} (es : List (String × α))
    (k : String) (h : k ∉ es.map Prod.fst) : mapGet es k = none := by
  cases hg : mapGet es k with
  | none => rfl
  | some v => exact absurd (mem_map_fst_of_mapGet_some es k v hg) h

theorem lastValue_eq_none_of_not_mem {α : Type} (es : List (String × α))
    (k : String) (h : k ∉ es.map Prod.fst) : lastValue es k = none := by
  induction es with
  | nil => rfl
  | cons e rest ih =>
    simp only [List.map_cons, List.mem_cons, not_or] at h
    have he : e.1 ≠ k := fun hc => h.1 hc.symm
    rw [lastValue_cons, ih h.2]
    simp [he]

theorem lastValue_of_nodup {α : Type} (es : List (String × α)) (k : String)
    (v : α) (hnd : (es.map Prod.fst).Nodup) (h : mapGet es k = some v) :
    lastValue es k = some v := by
  induction es with
  | nil => simp [mapGet_nil] at h
  | cons e rest ih =>
    rw [List.map_cons, List.nodup_cons] at hnd
    rw [mapGet_cons] at h
    by_cases he : e.1 = k
    · have hrest : lastValue rest k = none :=
        lastValue_eq_none_of_not_mem rest k (he ▸ hnd.1)
      rw [lastValue_cons, hrest]
      rw [if_pos he] at h
      simp only
      rw [if_pos he, h]
    · rw [if_neg he] at h
      rw [lastValue_cons, ih hnd.2 h]

theorem mapGet_foldl_mapSet_nodup {α : Type} (es : List (String × α))
    (acc : List (String × α)) (k : String) (v : α)
    (hnd : (es.map Prod.fst).Nodup) (h : mapGet es k = some v) :
    mapGet (es.foldl (fun a e => mapSet a e.1 e.2) acc) k = some v := by
  rw [mapGet_foldl_mapSet, lastValue_of_nodup es k v hnd h]

/-! ## Lemmas about `upsert` -/

theorem upsert_of_get_none (t : FileTable) (f : VFile)
    (h : mapGet t f.path = none) : upsert t f = t ++ [(f.path, f)] := by
  unfold upsert
  simp only [h]
  exact mapSet_of_get_none t f.path f h

theorem upsert_of_get_some_lt (t : FileTable) (f g : VFile)
    (h : mapGet t f.path = some g) (hlt : g.Precedence < f.Precedence) :
    upsert t f = mapSet t f.path f := by
  unfold upsert
  simp only [h, if_pos hlt]

theorem upsert_of_get_some_ge (t : FileTable) (f g : VFile)
    (h : mapGet t f.path = some g) (hge : ¬ g.Precedence < f.Precedence) :
    upsert t f = t := by
  unfold upsert
  simp only [h, if_neg hge]

theorem mapGet_upsert_self (t : FileTable) (f : VFile) :
    mapGet (upsert t f) f.path =
      match mapGet t f.path with
      | none => some f
      | some g => if g.Precedence < f.Precedence then some f else some g := by
  cases h : mapGet t f.path with
  | none =>
    rw [upsert_of_get_none t f h, mapGet_append, h]
    simp [mapGet_cons]
  | some g =>
    by_cases hg : g.Precedence < f.Precedence
    · rw [upsert_of_get_some_lt t f g h hg, mapGet_mapSet]
      simp [hg]
    · rw [upsert_of_get_some_ge t f g h hg, h]
      simp [hg]

theorem nodup_keys_upsert (t : FileTable) (f : VFile)
    (h : (t.map Prod.fst).Nodup) : ((upsert t f).map Prod.fst).Nodup := by
  cases hg : mapGet t f.path with
  | none =>
    rw [upsert_of_get_none t f hg]
    rw [← mapSet_of_get_none t f.path f hg]
    exact nodup_keys_mapSet t f.path f h
  | some g =>
    by_cases hlt : g.Precedence < f.Precedence
    · rw [upsert_of_get_some_lt t f g hg hlt]
      exact nodup_keys_mapSet t f.path f h
    · rw [upsert_of_get_some_ge t f g hg hlt]
      exact h

/-! ## Lemmas about the JS string primitives and `ResolveVirtualPath` -/

theorem jsReplaceFirst_of_startsWith (s pat repl : String)
    (h : jsStartsWith s pat = true) :
    jsReplaceFirst s pat repl = repl ++ jsDrop s pat.length := by
  have hp : pat.data.isPrefixOf s.data = true := h
  apply String.ext
  show jsReplaceFirstList pat.data repl.data s.data =
    (repl ++ jsDrop s pat.length).data
  rw [String.data_append]
  show _ = repl.data ++ s.data.drop pat.data.length
  cases hs : s.data with
  | nil =>
    rw [hs] at hp
    show (if pat.data.isPrefixOf ([] : List Char) then repl.data else []) = _
    rw [if_pos hp, List.drop_nil, List.append_nil]
  | cons c rest =>
    rw [hs] at hp
    show (if pat.data.isPrefixOf (c :: rest) then
      repl.data ++ (c :: rest).drop pat.data.length
      else c :: jsReplaceFirstList pat.data repl.data rest) = _
    rw [if_pos hp]

theorem resolveVirtualPathAux_no_match (path : String)
    (ts : List (String × String)) (i₀ : Nat)
    (h : ∀ r ∈ ts, jsStartsWith path r.1 = false) :
    resolveVirtualPathAux path i₀ ts = (path, 0) := by
  induction ts generalizing i₀ with
  | nil => rfl
  | cons r rest ih =>
    have hr : jsStartsWith path r.1 = false := h r (List.mem_cons_self r rest)
    show (if jsStartsWith path r.1 then _ else _) = _
    rw [hr]
    simp only [Bool.false_eq_true, if_false]
    exact ih (i₀ + 1) (fun r' hr' => h r' (List.mem_cons_of_mem r hr'))

theorem resolveVirtualPathAux_first_match (path : String)
    (ts : List (String × String)) (i₀ i : Nat) (hi : i < ts.length)
    (hmatch : jsStartsWith path (ts.get ⟨i, hi⟩).1 = true)
    (hfirst : ∀ j (hj : j < i), jsStartsWith path (ts.get ⟨j, hj.trans hi⟩).1 = false) :
    resolveVirtualPathAux path i₀ ts =
      (resolvePath (jsReplaceFirst path (ts.get ⟨i, hi⟩).1 (ts.get ⟨i, hi⟩).2),
        i₀ + i) := by
  induction ts generalizing i₀ i with
  | nil => exact absurd hi (Nat.not_lt_zero i)
  | cons r rest ih =>
    match i with
    | 0 =>
      have hr : jsStartsWith path r.1 = true := hmatch
      show (if jsStartsWith path r.1 then
        (resolvePath (jsReplaceFirst path r.1 r.2), i₀) else _) = _
      rw [hr]
      simp only [if_true]
      rfl
    | j + 1 =>
      have hr : jsStartsWith path r.1 = false :=
        hfirst 0 (Nat.succ_pos j)
      show (if jsStartsWith path r.1 then _ else
        resolveVirtualPathAux path (i₀ + 1) rest) = _
      rw [hr]
      simp only [Bool.false_eq_true, if_false]
      have hj : j < rest.length := Nat.lt_of_succ_lt_succ hi
      have := ih (i₀ + 1) j hj hmatch
        (fun j' hj' => hfirst (j' + 1) (Nat.succ_lt_succ hj'))
      rw [this]
      congr 1
      omega

theorem mapGet_foldl_mapSet_of_not_mem {α : Type} (es : List (String × α))
    (acc : List (String × α)) (k : String) (h : k ∉ es.map Prod.fst) :
    mapGet (es.foldl (fun a e => mapSet a e.1 e.2) acc) k = mapGet acc k := by
  rw [mapGet_foldl_mapSet, lastValue_eq_none_of_not_mem es k h]

/-! ## Lemmas about `firstSeenDedup` -/

theorem mem_firstSeenDedup_foldl (l acc : List String) (s : String) :
    s ∈ l.foldl (fun acc x => if x ∈ acc then acc else acc ++ [x]) acc ↔
      s ∈ acc ∨ s ∈ l := by
  induction l generalizing acc with
  | nil => simp
  | cons a l ih =>
    show s ∈ l.foldl _ (if a ∈ acc then acc else acc ++ [a]) ↔ _
    rw [ih]
    by_cases ha : a ∈ acc
    · rw [if_pos ha]
      have hsa : s = a → s ∈ acc := fun h => h ▸ ha
      simp only [List.mem_cons]
      tauto
    · rw [if_neg ha]
      simp only [List.mem_append, List.mem_singleton, List.mem_cons]
      tauto

theorem nodup_firstSeenDedup_foldl (l acc : List String) (h : acc.Nodup) :
    (l.foldl (fun acc x => if x ∈ acc then acc else acc ++ [x]) acc).Nodup := by
  induction l generalizing acc with
  | nil => exact h
  | cons a l ih =>
    show (l.foldl _ (if a ∈ acc then acc else acc ++ [a])).Nodup
    by_cases ha : a ∈ acc
    · rw [if_pos ha]
      exact ih acc h
    · rw [if_neg ha]
      refine ih _ ?_
      rw [List.nodup_append]
      exact ⟨h, List.nodup_singleton a,
        fun x hx hx' => ha ((List.mem_singleton.mp hx') ▸ hx)⟩

/-! ## The claims -/

/-- Claim C1: for every virtual file presented to the table, `upsert` inserts
it when no entry exists at its virtual path; when an entry exists, it
replaces the incumbent if and only if the incoming file's precedence is
strictly greater than the incumbent's, and otherwise silently discards the
incoming file — so inserting a second file at the same path and equal
precedence leaves the table unchanged (the first wins), and key-uniqueness
(at most one file per virtual path) is preserved. -/
theorem upsert_collision_semantics (t : FileTable) (f : VFile) :
    (mapGet t f.path = none → upsert t f = t ++ [(f.path, f)]) ∧
    (∀ g, mapGet t f.path = some g →
      (g.Precedence < f.Precedence →
        upsert t f = mapSet t f.path f ∧ mapGet (upsert t f) f.path = some f) ∧
      (¬ g.Precedence < f.Precedence → upsert t f = t)) ∧
    (∀ f', f'.path = f.path → f'.Precedence = f.Precedence →
      upsert (upsert t f) f' = upsert t f) ∧
    ((t.map Prod.fst).Nodup → ((upsert t f).map Prod.fst).Nodup) := by
  refine ⟨fun h => upsert_of_get_none t f h,
    fun g hg => ⟨fun hlt => ?_, fun hge => upsert_of_get_some_ge t f g hg hge⟩,
    fun f' hpath hprec => ?_,
    fun h => nodup_keys_upsert t f h⟩
  · refine ⟨upsert_of_get_some_lt t f g hg hlt, ?_⟩
    rw [mapGet_upsert_self, hg]
    simp [hlt]
  · obtain ⟨g, hg, hge⟩ :
        ∃ g, mapGet (upsert t f) f'.path = some g ∧
          ¬ g.Precedence < f'.Precedence := by
      cases hg : mapGet t f.path with
      | none =>
        refine ⟨f, ?_, ?_⟩
        · rw [hpath, mapGet_upsert_self, hg]
        · rw [hprec]
          exact Nat.lt_irrefl _
      | some g =>
        by_cases hlt : g.Precedence < f.Precedence
        · refine ⟨f, ?_, ?_⟩
          · rw [hpath, mapGet_upsert_self, hg]
            simp [hlt]
          · rw [hprec]
            exact Nat.lt_irrefl _
        · refine ⟨g, ?_, ?_⟩
          · rw [hpath, mapGet_upsert_self, hg]
            simp [hlt]
          · rw [hprec]
            exact hlt
    exact upsert_of_get_some_ge _ f' g hg hge

/-- Witness for C1 at concrete inputs: inserting `⟨"/a/app.js", 1, 0⟩` into
the empty table appends it, and re-inserting a second file at the same path
and equal precedence leaves the table unchanged (the first file is kept). -/
theorem upsert_collision_semantics_witness :
    upsert [] ⟨"/a/app.js", 1, 0⟩ =
      [("/a/app.js", ⟨"/a/app.js", 1, 0⟩)] ∧
    upsert (upsert [] ⟨"/a/app.js", 1, 0⟩) ⟨"/a/app.js", 2, 0⟩ =
      upsert [] ⟨"/a/app.js", 1, 0⟩ :=
  ⟨(upsert_collision_semantics [] ⟨"/a/app.js", 1, 0⟩).1 rfl,
   (upsert_collision_semantics [] ⟨"/a/app.js", 1, 0⟩).2.2.1
     ⟨"/a/app.js", 2, 0⟩ rfl rfl⟩

/-- Claim C5: two files mapping to the same virtual path with precedences
`p₁ < p₂`, inserted into a table with no entry at that path, leave the table
holding the `p₂` file at that path in either insertion order, and the final
table state is identical for the two orders. -/
theorem upsert_order_independent (t : FileTable) (p : String) (f₁ f₂ : VFile)
    (hp : mapGet t p = none) (h₁ : f₁.path = p) (h₂ : f₂.path = p)
    (hlt : f₁.Precedence < f₂.Precedence) :
    upsert (upsert t f₁) f₂ = upsert (upsert t f₂) f₁ ∧
    mapGet (upsert (upsert t f₁) f₂) p = some f₂ := by
  have hp₁ : mapGet t f₁.path = none := by rw [h₁]; exact hp
  have hp₂ : mapGet t f₂.path = none := by rw [h₂]; exact hp
  have e₁ : upsert t f₁ = t ++ [(f₁.path, f₁)] := upsert_of_get_none t f₁ hp₁
  have e₂ : upsert t f₂ = t ++ [(f₂.path, f₂)] := upsert_of_get_none t f₂ hp₂
  have g₁ : mapGet (upsert t f₁) f₂.path = some f₁ := by
    rw [e₁, mapGet_append, h₂, hp]
    show mapGet [(f₁.path, f₁)] p = some f₁
    rw [mapGet_cons, if_pos h₁]
  have g₂ : mapGet (upsert t f₂) f₁.path = some f₂ := by
    rw [e₂, mapGet_append, h₁, hp]
    show mapGet [(f₂.path, f₂)] p = some f₂
    rw [mapGet_cons, if_pos h₂]
  have r₁ : upsert (upsert t f₁) f₂ = t ++ [(f₂.path, f₂)] := by
    rw [upsert_of_get_some_lt _ f₂ f₁ g₁ hlt, e₁]
    rw [h₁, h₂]
    exact mapSet_append_last t p f₁ f₂ hp
  have r₂ : upsert (upsert t f₂) f₁ = upsert t f₂ :=
    upsert_of_get_some_ge _ f₁ f₂ g₂ (Nat.not_lt.mpr (Nat.le_of_lt hlt))
  refine ⟨by rw [r₁, r₂, e₂], ?_⟩
  rw [r₁, mapGet_append, hp]
  show mapGet [(f₂.path, f₂)] p = some f₂
  rw [mapGet_cons, if_pos h₂]

/-- Witness for C5 at concrete inputs: files at `"/a/app.js"` with
precedences `0 < 1` inserted in either order leave the precedence-1 file. -/
theorem upsert_order_independent_witness :
    upsert (upsert [] ⟨"/a/app.js", 1, 0⟩) ⟨"/a/app.js", 2, 1⟩ =
      upsert (upsert [] ⟨"/a/app.js", 2, 1⟩) ⟨"/a/app.js", 1, 0⟩ ∧
    mapGet (upsert (upsert [] ⟨"/a/app.js", 1, 0⟩) ⟨"/a/app.js", 2, 1⟩)
      "/a/app.js" = some ⟨"/a/app.js", 2, 1⟩ :=
  upsert_order_independent [] "/a/app.js" ⟨"/a/app.js", 1, 0⟩
    ⟨"/a/app.js", 2, 1⟩ rfl rfl rfl (by decide)

/-- Claim C3: for every fixed ordered rule list and input path, if some
rule's from-prefix starts the path then `ResolveVirtualPath` returns the
path with the **first** such rule's from-prefix substituted by its to-prefix
(the code normalises the substituted path through `path.resolve`) and
precedence equal to that rule's 0-based position; if no rule's from-prefix
starts the path, it returns the input path unmodified with precedence 0. -/
theorem ResolveVirtualPath_first_match_spec (ts : List (String × String))
    (path : String) :
    ((∀ r ∈ ts, jsStartsWith path r.1 = false) →
      ResolveVirtualPath ts path = (path, 0)) ∧
    (∀ i (hi : i < ts.length),
      jsStartsWith path (ts.get ⟨i, hi⟩).1 = true →
      (∀ j (hj : j < i), jsStartsWith path (ts.get ⟨j, hj.trans hi⟩).1 = false) →
      ResolveVirtualPath ts path =
        (resolvePath
          ((ts.get ⟨i, hi⟩).2 ++ jsDrop path (ts.get ⟨i, hi⟩).1.length), i)) := by
  constructor
  · intro h
    exact resolveVirtualPathAux_no_match path ts 0 h
  · intro i hi hmatch hfirst
    show resolveVirtualPathAux path 0 ts = _
    rw [resolveVirtualPathAux_first_match path ts 0 i hi hmatch hfirst,
      jsReplaceFirst_of_startsWith path _ _ hmatch, Nat.zero_add]

/-- Witness for C3 at concrete inputs: with rules
`[("/a", "/x"), ("/a/b", "/y")]` the path `"/a/b/c.js"` matches both rules
but is resolved by the first (index 0), yielding the substituted path
`"/x/b/c.js"`; with the single rule `[("/q", "/x")]` the same path matches
nothing and is returned unmodified at precedence 0. -/
theorem ResolveVirtualPath_first_match_spec_witness :
    ResolveVirtualPath [("/a", "/x"), ("/a/b", "/y")] "/a/b/c.js" =
      (resolvePath ("/x" ++ jsDrop "/a/b/c.js" ("/a" : String).length), 0) ∧
    resolvePath ("/x" ++ jsDrop "/a/b/c.js" ("/a" : String).length) =
      "/x/b/c.js" ∧
    ResolveVirtualPath [("/q", "/x")] "/a/b/c.js" = ("/a/b/c.js", 0) := by
  refine ⟨(ResolveVirtualPath_first_match_spec
      [("/a", "/x"), ("/a/b", "/y")] "/a/b/c.js").2 0 (by decide) (by decide)
      (fun j hj => absurd hj (Nat.not_lt_zero j)),
    by decide,
    (ResolveVirtualPath_first_match_spec [("/q", "/x")] "/a/b/c.js").1 ?_⟩
  intro r hr
  rw [List.mem_singleton.mp hr]
  decide

/-- Claim C10: a path matched by the rule at index 0 receives precedence 0,
the same precedence as a path matching no rule at all; consequently, on a
collision at one virtual path between two precedence-0 files, whichever file
arrives first is kept, regardless of which of the two matched a rule. -/
theorem rule_zero_ties_unmatched :
    (∀ (fromP toP : String) (rest : List (String × String)) (path : String),
      jsStartsWith path fromP = true →
      (ResolveVirtualPath ((fromP, toP) :: rest) path).2 = 0) ∧
    (∀ (ts : List (String × String)) (path : String),
      (∀ r ∈ ts, jsStartsWith path r.1 = false) →
      ResolveVirtualPath ts path = (path, 0)) ∧
    (∀ (t : FileTable) (p : String) (f₁ f₂ : VFile),
      mapGet t p = none → f₁.path = p → f₂.path = p →
      f₁.Precedence = 0 → f₂.Precedence = 0 →
      mapGet (upsert (upsert t f₁) f₂) p = some f₁) := by
  refine ⟨?_, ?_, ?_⟩
  · intro fromP toP rest path h
    have h0 : (0 : Nat) < ((fromP, toP) :: rest).length := Nat.succ_pos _
    have := resolveVirtualPathAux_first_match path ((fromP, toP) :: rest) 0 0
      h0 h (fun j hj => absurd hj (Nat.not_lt_zero j))
    show (resolveVirtualPathAux path 0 ((fromP, toP) :: rest)).2 = 0
    rw [this]
  · intro ts path h
    exact resolveVirtualPathAux_no_match path ts 0 h
  · intro t p f₁ f₂ hp h₁ h₂ hq₁ hq₂
    have hp₁ : mapGet t f₁.path = none := by rw [h₁]; exact hp
    have e₁ : upsert t f₁ = t ++ [(f₁.path, f₁)] := upsert_of_get_none t f₁ hp₁
    have g₁ : mapGet (upsert t f₁) f₂.path = some f₁ := by
      rw [e₁, mapGet_append, h₂, hp]
      show mapGet [(f₁.path, f₁)] p = some f₁
      rw [mapGet_cons, if_pos h₁]
    have hge : ¬ f₁.Precedence < f₂.Precedence := by
      rw [hq₁, hq₂]
      exact Nat.lt_irrefl 0
    rw [upsert_of_get_some_ge _ f₂ f₁ g₁ hge, e₁, mapGet_append, hp]
    show mapGet [(f₁.path, f₁)] p = some f₁
    rw [mapGet_cons, if_pos h₁]

/-- Witness for C10 at concrete inputs: `"/b/x.js"` matches rule 0 of
`[("/b", "/a")]` and gets precedence 0; `"/c/x.js"` matches nothing and gets
precedence 0; and at a shared virtual path two precedence-0 files keep the
first-arrived one. -/
theorem rule_zero_ties_unmatched_witness :
    (ResolveVirtualPath [("/b", "/a")] "/b/x.js").2 = 0 ∧
    ResolveVirtualPath [("/b", "/a")] "/c/x.js" = ("/c/x.js", 0) ∧
    mapGet (upsert (upsert [] ⟨"/a/x.js", 1, 0⟩) ⟨"/a/x.js", 2, 0⟩)
      "/a/x.js" = some ⟨"/a/x.js", 1, 0⟩ := by
  refine ⟨rule_zero_ties_unmatched.1 "/b" "/a" [] "/b/x.js" (by decide),
    rule_zero_ties_unmatched.2.1 [("/b", "/a")] "/c/x.js" ?_,
    rule_zero_ties_unmatched.2.2 [] "/a/x.js" ⟨"/a/x.js", 1, 0⟩
      ⟨"/a/x.js", 2, 0⟩ rfl rfl rfl rfl rfl⟩
  intro r hr
  rw [List.mem_singleton.mp hr]
  decide

/-- Claim C8: an incoming item that is not a recognised file object is
pushed downstream unchanged immediately — not buffered, not inserted into
the virtual-file table, and not an error — while a recognised file object is
upserted into the table (at its resolved virtual path and precedence) and
nothing is emitted during the streaming phase. -/
theorem transform_passthrough_and_collect (ts : List (String × String))
    (table : FileTable) :
    (∀ chunk, isVinyl chunk = false →
      transformStep ts table chunk = (table, [chunk], none)) ∧
    (∀ f : PlainFile,
      transformStep ts table (Chunk.vinyl f) =
        (upsert table
          { path := (ResolveVirtualPath ts f.path).1
            contents := f.contents
            Precedence := (ResolveVirtualPath ts f.path).2 }, [], none)) := by
  constructor
  · intro chunk h
    cases chunk with
    | vinyl f => simp [isVinyl] at h
    | other tag => rfl
  · intro f
    rfl

/-- Witness for C8 at concrete inputs: the non-file chunk `other 7` passes
straight through with the table untouched, and a file chunk is collected
into the table without being emitted. -/
theorem transform_passthrough_and_collect_witness :
    transformStep [] [("/v", ⟨"/v", 9, 0⟩)] (Chunk.other 7) =
      ([("/v", ⟨"/v", 9, 0⟩)], [Chunk.other 7], none) ∧
    transformStep [] [] (Chunk.vinyl ⟨"/a/app.js", 1⟩) =
      (upsert []
        { path := (ResolveVirtualPath [] "/a/app.js").1
          contents := 1
          Precedence := (ResolveVirtualPath [] "/a/app.js").2 }, [], none) :=
  ⟨(transform_passthrough_and_collect [] [("/v", ⟨"/v", 9, 0⟩)]).1
      (Chunk.other 7) rfl,
   (transform_passthrough_and_collect [] []).2 ⟨"/a/app.js", 1⟩⟩

/-- Claim C4: when both bundling passes succeed, the chunks `_flush` pushes
are exactly the script-pass outputs, then the style-pass outputs, then every
remaining virtual-file-table entry with its precedence metadata stripped, in
table order; afterwards the table is cleared (empty for any subsequent
phase) and the callback reports success. -/
theorem flush_emission_order {E F : Type}
    (bp : FileTable → BundleMap → F → Except E (List Chunk × ResultsMap))
    (scriptBundles styleBundles : BundleMap) (scriptsF stylesF : F)
    (table : FileTable) (results : ResultsMap)
    (cs₁ cs₂ : List Chunk) (rm₁ rm₂ : ResultsMap)
    (h₁ : bp table scriptBundles scriptsF = .ok (cs₁, rm₁))
    (h₂ : bp table styleBundles stylesF = .ok (cs₂, rm₂)) :
    (flush bp scriptBundles styleBundles scriptsF stylesF table results).pushed =
      cs₁ ++ cs₂ ++ table.map (fun kv => Chunk.vinyl kv.2.strip) ∧
    (flush bp scriptBundles styleBundles scriptsF stylesF table results).table =
      [] ∧
    (flush bp scriptBundles styleBundles scriptsF stylesF table
      results).callbackArg = none := by
  unfold flush
  simp only [h₁, h₂]
  exact ⟨trivial, trivial, trivial⟩

/-- Witness for C4 at concrete inputs: a `BundlesProcessor` returning one
marker chunk per pass pushes scripts output, styles output, then the
stripped residual file, and the table ends empty. -/
theorem flush_emission_order_witness :
    (flush
      (fun _ bundles (_ : Unit) =>
        (.ok ([Chunk.other bundles.length], bundles) :
          Except Unit (List Chunk × ResultsMap)))
      [("a", [])] [] () () [("/v", ⟨"/v", 5, 2⟩)] []).pushed =
      [Chunk.other 1, Chunk.other 0, Chunk.vinyl ⟨"/v", 5⟩] ∧
    (flush
      (fun _ bundles (_ : Unit) =>
        (.ok ([Chunk.other bundles.length], bundles) :
          Except Unit (List Chunk × ResultsMap)))
      [("a", [])] [] () () [("/v", ⟨"/v", 5, 2⟩)] []).table = [] :=
  ⟨(flush_emission_order _ [("a", [])] [] () () [("/v", ⟨"/v", 5, 2⟩)] []
      [Chunk.other 1] [Chunk.other 0] [("a", [])] [] rfl rfl).1,
   (flush_emission_order _ [("a", [])] [] () () [("/v", ⟨"/v", 5, 2⟩)] []
      [Chunk.other 1] [Chunk.other 0] [("a", [])] [] rfl rfl).2.1⟩

/-- Claim C9: every fault raised during per-item processing (modelled by a
fallible virtual-path step) or during completion processing (a fallible
`BundlesProcessor` pass) is reported exactly once, through the single
callback argument, as a `PluginError` carrying the plugin's identity and the
original fault as its cause; the step and flush functions are total, so no
fault escapes as an unhandled exception. -/
theorem faults_wrapped_once (E F : Type) :
    (∀ (resolve : String → Except E (String × Nat)) (table : FileTable)
        (f : PlainFile) (e : E), resolve f.path = .error e →
      transformStepE resolve table (Chunk.vinyl f) =
        (table, [], some ⟨PluginName, e⟩)) ∧
    (∀ (bp : FileTable → BundleMap → F → Except E (List Chunk × ResultsMap))
        (sB stB : BundleMap) (sF stF : F) (table : FileTable)
        (results : ResultsMap) (e : E),
      bp table sB sF = .error e →
      flush bp sB stB sF stF table results =
        ⟨[], table, results, some ⟨PluginName, e⟩⟩) ∧
    (∀ (bp : FileTable → BundleMap → F → Except E (List Chunk × ResultsMap))
        (sB stB : BundleMap) (sF stF : F) (table : FileTable)
        (results : ResultsMap) (cs₁ : List Chunk) (rm₁ : ResultsMap) (e : E),
      bp table sB sF = .ok (cs₁, rm₁) → bp table stB stF = .error e →
      (flush bp sB stB sF stF table results).pushed = cs₁ ∧
      (flush bp sB stB sF stF table results).callbackArg =
        some ⟨PluginName, e⟩) := by
  refine ⟨?_, ?_, ?_⟩
  · intro resolve table f e h
    unfold transformStepE
    simp only [h]
  · intro bp sB stB sF stF table results e h
    unfold flush
    simp only [h]
  · intro bp sB stB sF stF table results cs₁ rm₁ e h₁ h₂
    unfold flush
    simp only [h₁, h₂]
    exact ⟨trivial, trivial⟩

/-- Witness for C9 at concrete inputs: a per-item fault, a scripts-pass
fault and a styles-pass fault each surface exactly once as
`⟨PluginName, fault⟩` through the callback. -/
theorem faults_wrapped_once_witness :
    transformStepE (fun _ => (.error 7 : Except Nat (String × Nat))) []
      (Chunk.vinyl ⟨"/a", 1⟩) = ([], [], some ⟨PluginName, 7⟩) ∧
    flush (fun _ _ (_ : Unit) =>
        (.error 7 : Except Nat (List Chunk × ResultsMap)))
      [] [] () () [] [] = ⟨[], [], [], some ⟨PluginName, 7⟩⟩ ∧
    (flush (fun _ bundles (_ : Unit) =>
        if bundles.isEmpty then (.error 7 : Except Nat (List Chunk × ResultsMap))
        else .ok ([], []))
      [("a", [])] [] () () [] []).callbackArg = some ⟨PluginName, 7⟩ :=
  ⟨(faults_wrapped_once Nat Unit).1 _ [] ⟨"/a", 1⟩ 7 rfl,
   (faults_wrapped_once Nat Unit).2.1 _ [] [] () () [] [] 7 rfl,
   ((faults_wrapped_once Nat Unit).2.2 _ [("a", [])] [] () () [] [] [] [] 7
     rfl rfl).2⟩

/-- Counterexample to claim C2: with a `BundlesProcessor` declaring output
path `"s.js"` for bundle `"a"` in the scripts pass and `"c.css"` for the
same bundle in the styles pass, the final `ResultsMap` entry for `"a"` is
`["c.css"]` alone — the style-pass `set` overwrote the script-pass entry —
and not the claimed merge `["s.js", "c.css"]`. -/
theorem flush_results_not_merged_cex :
    mapGet (flush
        (fun _ bundles (_ : Unit) =>
          (.ok ([], bundles) : Except Unit (List Chunk × ResultsMap)))
        [("a", ["s.js"])] [("a", ["c.css"])] () () [] []).results "a" =
      some ["c.css"] ∧
    ¬ mapGet (flush
        (fun _ bundles (_ : Unit) =>
          (.ok ([], bundles) : Except Unit (List Chunk × ResultsMap)))
        [("a", ["s.js"])] [("a", ["c.css"])] () () [] []).results "a" =
      some ["s.js", "c.css"] := by
  constructor
  · decide
  · decide

/-- Claim C2 as amended: after completion processing, for a bundle name
present in the style pass's declared results (bundle names being unique in
each pass), the `ResultsMap` entry holds exactly the style-pass paths — each
pass records with `Map.set`, so the style pass *overwrites* a script-pass
entry of the same name rather than merging with it; script-pass paths
survive only for names absent from the style-pass results. -/
theorem flush_results_last_set_wins {E F : Type}
    (bp : FileTable → BundleMap → F → Except E (List Chunk × ResultsMap))
    (scriptBundles styleBundles : BundleMap) (scriptsF stylesF : F)
    (table : FileTable) (cs₁ cs₂ : List Chunk) (rm₁ rm₂ : ResultsMap)
    (h₁ : bp table scriptBundles scriptsF = .ok (cs₁, rm₁))
    (h₂ : bp table styleBundles stylesF = .ok (cs₂, rm₂))
    (name : String) (paths : List String) :
    ((rm₂.map Prod.fst).Nodup → mapGet rm₂ name = some paths →
      mapGet (flush bp scriptBundles styleBundles scriptsF stylesF table
        []).results name = some paths) ∧
    (name ∉ rm₂.map Prod.fst → (rm₁.map Prod.fst).Nodup →
      mapGet rm₁ name = some paths →
      mapGet (flush bp scriptBundles styleBundles scriptsF stylesF table
        []).results name = some paths) := by
  constructor
  · intro hnd hname
    unfold flush
    simp only [h₁, h₂]
    exact mapGet_foldl_mapSet_nodup rm₂ _ name paths hnd hname
  · intro hnot hnd hname
    unfold flush
    simp only [h₁, h₂]
    rw [mapGet_foldl_mapSet_of_not_mem rm₂ _ name hnot]
    exact mapGet_foldl_mapSet_nodup rm₁ _ name paths hnd hname

/-- Witness for the amended C2 at concrete inputs: for bundle `"a"` declared
in both passes the final entry is the style-pass value `["c.css"]`, and for
bundle `"b"` declared only in the scripts pass the script-pass value
survives. -/
theorem flush_results_last_set_wins_witness :
    mapGet (flush
        (fun _ bundles (_ : Unit) =>
          (.ok ([], bundles) : Except Unit (List Chunk × ResultsMap)))
        [("a", ["s.js"]), ("b", ["b.js"])] [("a", ["c.css"])] () () []
        []).results "a" = some ["c.css"] ∧
    mapGet (flush
        (fun _ bundles (_ : Unit) =>
          (.ok ([], bundles) : Except Unit (List Chunk × ResultsMap)))
        [("a", ["s.js"]), ("b", ["b.js"])] [("a", ["c.css"])] () () []
        []).results "b" = some ["b.js"] :=
  ⟨(flush_results_last_set_wins _ [("a", ["s.js"]), ("b", ["b.js"])]
      [("a", ["c.css"])] () () [] [] [] [("a", ["s.js"]), ("b", ["b.js"])]
      [("a", ["c.css"])] rfl rfl "a" ["c.css"]).1 (by decide) rfl,
   (flush_results_last_set_wins _ [("a", ["s.js"]), ("b", ["b.js"])]
      [("a", ["c.css"])] () () [] [] [] [("a", ["s.js"]), ("b", ["b.js"])]
      [("a", ["c.css"])] rfl rfl "b" ["b.js"]).2 (by decide) (by decide) rfl⟩

/-- Counterexample to claim C6: a configuration source carrying a `bundle`
key but **no** `copy` key constructs successfully — construction does not
fail for every source missing one of the two keys (it fails only when both
are missing, as the environment-extraction unit tests themselves rely on by
constructing models from `{bundle: {...}}` alone). -/
theorem configModel_missing_copy_ok_cex :
    constructConfigModel (some { bundle := some [], copy := none }) none =
      .ok { bundle := [], copy := none, base := "." } := rfl

/-- Claim C6 as amended: `ConfigModel` construction fails with a
`ConfigurationShapeError` — whose message is the documented "must be of the
form `{ bundle: {}, copy: {} }`" text — precisely when the source is absent
or, after resolution, lacks **both** the `bundle` key and the `copy` key;
a source carrying either key constructs successfully. -/
theorem constructConfigModel_shape_spec (source : Option RawConfigObj)
    (optionsBase : Option String) :
    ((∃ e, constructConfigModel source optionsBase = .error e) ↔
      (source = none ∨ ∃ c, source = some c ∧ c.bundle = none ∧ c.copy = none)) ∧
    (∀ e, constructConfigModel source optionsBase = .error e →
      e.message = configurationShapeMessage) := by
  have hsome : ∀ (c : RawConfigObj) (ob : Option String),
      constructConfigModel (some c) ob =
        if c.bundle.isNone && c.copy.isNone then
          .error ⟨configurationShapeMessage⟩
        else .ok (ConfigModel.mk (c.bundle.getD []) c.copy (ob.getD ".")) :=
    fun _ _ => rfl
  constructor
  · constructor
    · rintro ⟨e, he⟩
      cases source with
      | none => exact Or.inl rfl
      | some c =>
        refine Or.inr ⟨c, rfl, ?_⟩
        rw [hsome] at he
        by_cases hb : (c.bundle.isNone && c.copy.isNone) = true
        · rw [Bool.and_eq_true] at hb
          exact ⟨Option.isNone_iff_eq_none.mp hb.1,
            Option.isNone_iff_eq_none.mp hb.2⟩
        · rw [if_neg hb] at he
          exact Except.noConfusion he
    · intro h
      rcases h with rfl | ⟨c, rfl, hb, hc⟩
      · exact ⟨⟨configurationShapeMessage⟩, rfl⟩
      · refine ⟨⟨configurationShapeMessage⟩, ?_⟩
        rw [hsome, hb, hc]
        rfl
  · intro e he
    cases source with
    | none =>
      have h2 : (Except.error ⟨configurationShapeMessage⟩ :
          Except ConfigurationShapeError ConfigModel) = .error e := he
      injection h2 with h
      rw [← h]
    | some c =>
      rw [hsome] at he
      by_cases hb : (c.bundle.isNone && c.copy.isNone) = true
      · rw [if_pos hb] at he
        injection he with h
        rw [← h]
      · rw [if_neg hb] at he
        exact Except.noConfusion he

/-- Witness for the amended C6 at concrete inputs: the source `{junk: {}}`
(neither `bundle` nor `copy`) fails, and the resulting error carries the
documented message. -/
theorem constructConfigModel_shape_spec_witness :
    (∃ e, constructConfigModel (some { bundle := none, copy := none }) none =
      .error e) ∧
    (ConfigurationShapeError.mk configurationShapeMessage).message =
      configurationShapeMessage :=
  ⟨(constructConfigModel_shape_spec (some { bundle := none, copy := none })
      none).1.mpr (Or.inr ⟨{ bundle := none, copy := none }, rfl, rfl, rfl⟩),
   (constructConfigModel_shape_spec (some { bundle := none, copy := none })
      none).2 ⟨configurationShapeMessage⟩ rfl⟩

/-- Claim C7: `getAllEnvironments` yields the distinct environment names
referenced by any `options` value under `bundle`, in first-seen depth-first
top-to-bottom order with each name exactly once: on the documented example
configuration it returns exactly
`["production", "staging", "sat", "development"]`, on any configuration
whose options mention no environment names it returns `[]`, its result
never repeats a name, and it contains exactly the mentioned names. -/
theorem getAllEnvironments_spec :
    (constructConfigModel (some exampleComplexRaw) none =
      .ok (ConfigModel.mk exampleComplexBundles none ".") ∧
     getAllEnvironments (ConfigModel.mk exampleComplexBundles none ".") =
       ["production", "staging", "sat", "development"]) ∧
    (∀ c : ConfigModel, allEnvMentions c.bundle = [] →
      getAllEnvironments c = []) ∧
    (∀ c : ConfigModel, (getAllEnvironments c).Nodup) ∧
    (∀ (c : ConfigModel) (s : String),
      s ∈ getAllEnvironments c ↔ s ∈ allEnvMentions c.bundle) := by
  refine ⟨⟨rfl, by decide⟩, ?_, ?_, ?_⟩
  · intro c h
    show firstSeenDedup (allEnvMentions c.bundle) = []
    rw [h]
    rfl
  · intro c
    exact nodup_firstSeenDedup_foldl (allEnvMentions c.bundle) []
      List.nodup_nil
  · intro c s
    show s ∈ (allEnvMentions c.bundle).foldl _ [] ↔ _
    rw [mem_firstSeenDedup_foldl]
    simp

/-- Witness for C7 at concrete inputs: a configuration whose only options
are booleans yields no environments, and membership in the example's result
coincides with membership in its raw mention sequence. -/
theorem getAllEnvironments_spec_witness :
    getAllEnvironments
      (ConfigModel.mk
        [("main", BundleDef.mk (some 0) none
          [("uglify", .bool false), ("rev", .bool true)])] none ".") = [] ∧
    ("production" ∈
        getAllEnvironments (ConfigModel.mk exampleComplexBundles none ".") ↔
      "production" ∈ allEnvMentions exampleComplexBundles) :=
  ⟨getAllEnvironments_spec.2.1 _ rfl,
   getAllEnvironments_spec.2.2.2 _ "production"⟩

end GulpBundleAssets
